import Mathlib

/-!
Shallow embedding of `cldfbench_jacquesestimative.py` (the CLDF dataset
builder for Jacques' estimative data).  Python strings are modelled as
`List Char`; Python dicts holding raw CSV rows are modelled as total
functions `String → String` (every key the code accesses is present in the
raw data); the two mutually exclusive fields written by `add_source` are
modelled as an explicit pair of `Option`s.  All definitions are executable
and structurally recursive (string scans take an explicit fuel argument
that the wrapper instantiates with the string length).
-/

/-! ### Generic string (list-of-char) machinery -/

/-- Match a literal prefix: `stripPrefixL p s` returns the remainder of `s`
after `p` when `p` is a prefix of `s`, and `none` otherwise. -/
def stripPrefixL : List Char → List Char → Option (List Char)
  | [], s => some s
  | _ :: _, [] => none
  | p :: ps, c :: cs => if c = p then stripPrefixL ps cs else none

/-- Split a string at the first occurrence of the character `c`:
returns (text before `c`, text after `c`), or `none` when `c` does not
occur. -/
def splitAtChar (c : Char) : List Char → Option (List Char × List Char)
  | [] => none
  | x :: xs =>
    if x = c then some ([], xs)
    else (splitAtChar c xs).map (fun p => (x :: p.1, p.2))

/-- One fuel-indexed step of Python's `str.replace`: scan left to right,
replacing each non-overlapping occurrence of `p` by `r`.  The fuel only
serves to make the recursion structural; `replaceL` instantiates it with
the length of the scanned string, which always suffices. -/
def replaceFuel (p r : List Char) : Nat → List Char → List Char
  | 0, s => s
  | _ + 1, [] => []
  | fuel + 1, c :: s =>
    if p ≠ [] ∧ List.IsPrefix p (c :: s) then
      r ++ replaceFuel p r fuel (List.drop p.length (c :: s))
    else
      c :: replaceFuel p r fuel s

/-- Python's `str.replace(p, r)` for a non-empty pattern `p` (the only way
this repository calls it). -/
def replaceL (p r s : List Char) : List Char :=
  replaceFuel p r s.length s

/-! ### The citation regex (`REGEX_REFERENCE`, line 22) and `add_source`
(lines 43-53)

`REGEX_REFERENCE` is the Python regex
`\cite(?:p|t|alt)(?:\[([^\]]+)\])?\{([^}]*)\}`, applied with `re.match`
(anchored at the start of the string only).  Backtracking never changes
the outcome for this particular regex:

* the alternation `(?:p|t|alt)` is deterministic — at most one branch can
  match, because `p`, `t` and `alt` start with pairwise distinct letters;
* `[^\]]+` inside the optional group is greedy, but every shorter match
  also ends on a non-`]` character, so the group matches exactly when the
  next character is `[` and a later `]` exists with at least one character
  in between; when the optional group fails (or, after it succeeded, the
  following `\{` fails), the engine retries without the group, where `\{`
  must then match the original `[` — which always fails;
* `[^}]*` matches everything up to the first `}`, which must exist.

So the regex matches iff the deterministic parser below succeeds, and the
two capture groups are the returned (pages, bibkey). -/

/-- `regex_reference_match s` models `re.match(REGEX_REFERENCE, s)`:
`none` when the regex does not match at the start of `s`, otherwise
`some (pages, bibkey)` where `pages` is capture group 1 (the optional
`[...]` locator, `none` when the group did not participate) and `bibkey`
is capture group 2. -/
def regex_reference_match (s : List Char) : Option (Option (List Char) × List Char) :=
  (stripPrefixL "\\cite".data s).bind fun rest =>
  ((stripPrefixL "p".data rest).orElse fun _ =>
    (stripPrefixL "t".data rest).orElse fun _ =>
      stripPrefixL "alt".data rest).bind fun rest2 =>
  let braces : Option (List Char) → List Char → Option (Option (List Char) × List Char) :=
    fun pages rest3 =>
      match rest3 with
      | '\x7b' :: rest4 =>
        match splitAtChar '\x7d' rest4 with
        | some (bibkey, _) => some (pages, bibkey)
        | none => none
      | _ => none
  match rest2 with
  | '[' :: rest3 =>
    match splitAtChar ']' rest3 with
    | some ([], _) => none          -- `[^\]]+` needs at least one character
    | some (pages, rest4) => braces (some pages) rest4
    | none => none                  -- no closing `]`: optional group fails,
                                     -- and `\{` cannot match the `[`
  | _ => braces none rest2

/-- Python `pages.replace(';', ',')` — a single-character replacement is a
plain `map`. -/
def semicolonsToCommas (pg : List Char) : List Char :=
  pg.map fun c => if c = ';' then ',' else c

/-- `add_source(row)` (lines 43-53).  The function mutates the record: it
sets `row['Source']` to a one-element list when the regex matches and
`row['Source_comment']` to the raw reference otherwise.  We model the pair
of written fields as the result `(Source, Source_comment)`.  Python's
`if pages:` is false both for `None` and for an empty string, hence the
emptiness test. -/
def add_source (reference : List Char) : Option (List (List Char)) × Option (List Char) :=
  match regex_reference_match reference with
  | some (pages, bibkey) =>
    let ref : List Char :=
      match pages with
      | some pg =>
        if pg = [] then bibkey
        else bibkey ++ ('[' :: semicolonsToCommas pg) ++ [']']
      | none => bibkey
    (some [ref], none)
  | none => (none, some reference)

/-! ### The language table (lines 10-20 and 155-160)

`LANGUAGE_COLUMN_MAP` is a list of pairs, and `cmd_makecldf` builds each
language record as the dict comprehension
`{new_key: row[old_key] for new_key, old_key in LANGUAGE_COLUMN_MAP}`:
the FIRST component of each pair is the key of the built record and the
SECOND component is the column of the raw row it is read from. -/

def LANGUAGE_COLUMN_MAP : List (String × String) :=
  [("ID", "id"),
   ("Glottocode", "id"),
   ("Family_ID", "family_id"),
   ("Parent_ID", "parent_id"),
   ("Name", "name"),
   ("Latitude", "latitude"),
   ("Longitude", "longitude"),
   ("ISO639P3code", "iso639P3code"),
   ("reference", "reference")]

/-- Insertion into a Python dict modelled as an association list: a
duplicate key overwrites in place (last write wins), a new key is appended
at the end (Python dicts preserve insertion order). -/
def dictInsert : List (String × String) → String → String → List (String × String)
  | [], k, v => [(k, v)]
  | (k', v') :: d, k, v =>
    if k' = k then (k, v) :: d else (k', v') :: dictInsert d k v

/-- One language record of `language_table` (lines 155-158): the dict
comprehension over `LANGUAGE_COLUMN_MAP`, with Python dict semantics for
any duplicate keys. -/
def build_language_row (row : String → String) : List (String × String) :=
  LANGUAGE_COLUMN_MAP.foldl (fun d kv => dictInsert d kv.1 (row kv.2)) []

/-! ### `make_value` (lines 56-68) and the value table (lines 162-170) -/

/-- One row of the CLDF value table, as written by `make_value`. -/
structure ValueRow where
  ID : String
  Language_ID : String
  Parameter_ID : String
  Code_ID : Option String
  Value : String
deriving DecidableEq, Repr

/-- `make_value(row, code_table, code_id_map, param_id)` (lines 56-68).
`row` is a raw data row (dict of column name to cell content), `codeName`
models `code_table[code_id]['Name']`, `code_id_map` models
`code_id_map.get((param_id, row[param_id]))` (a dict `.get`, `none` when
the pair is absent).  Python's `if code_id:` is false both for `None` and
for an empty string. -/
def make_value (row : String → String) (codeName : String → String)
    (code_id_map : String × String → Option String) (param_id : String) : ValueRow :=
  match code_id_map (param_id, row param_id) with
  | some cid =>
    if cid = "" then
      { ID := row "id" ++ "-" ++ param_id, Language_ID := row "id",
        Parameter_ID := param_id, Code_ID := none, Value := row param_id }
    else
      { ID := row "id" ++ "-" ++ param_id, Language_ID := row "id",
        Parameter_ID := param_id, Code_ID := some cid, Value := codeName cid }
  | none =>
    { ID := row "id" ++ "-" ++ param_id, Language_ID := row "id",
      Parameter_ID := param_id, Code_ID := none, Value := row param_id }

/-- `value_table` (lines 167-170): the list comprehension
`[make_value(row, ..., param_id) for row in raw_data for param_id in
parameter_ids]` — parameters nested inside rows. -/
def value_table (raw_data : List (String → String)) (codeName : String → String)
    (code_id_map : String × String → Option String) (parameter_ids : List String) :
    List ValueRow :=
  raw_data.flatMap fun row => parameter_ids.map (make_value row codeName code_id_map)

/-! ### `patch_biblio` (lines 33-40) and `detex` (lines 75-83) -/

def ringePattern : List Char := "Ringe, Donald A., Jr.,".data
def ringeReplacement : List Char := "Ringe, Donald A. Jr.".data
def yahalomPattern : List Char := "Yahalom-Mack, Naama, Eliyahu-Behar, Adi".data
def yahalomReplacement : List Char := "Yahalom-Mack, Naama and Eliyahu-Behar, Adi".data

/-- `patch_biblio(bibtex_code)` (lines 33-40): two successive
`str.replace` calls fixing authors the BibTeX parser chokes on. -/
def patch_biblio (bibtex_code : List Char) : List Char :=
  replaceL yahalomPattern yahalomReplacement
    (replaceL ringePattern ringeReplacement bibtex_code)

def rightarrowPattern : List Char := "$\\rightarrow$".data
def emptysetPattern : List Char := "$\\emptyset$".data
def tldPattern : List Char := "\\tld\x7b\x7d".data
def textscPattern : List Char := "\\textsc\x7b".data

/-- The substitution `re.sub(r'\\textsc\{([^}]*)(?:\}|$)', upper, gloss)`
of `detex`, as a fuel-indexed left-to-right scan (the fuel only makes the
recursion structural; the wrapper passes the string length, which always
suffices).  `[^}]*` greedily captures up to the first `}`; when no `}`
follows, the `$` alternative accepts the rest of the string ( `$` always
matches at end of input, so the before-final-newline case of Python's `$`
never changes the result).  The captured group is uppercased. -/
def subTextscFuel : Nat → List Char → List Char
  | 0, s => s
  | _ + 1, [] => []
  | fuel + 1, c :: s =>
    if List.IsPrefix textscPattern (c :: s) then
      let rest := List.drop textscPattern.length (c :: s)
      match splitAtChar '\x7d' rest with
      | some (content, after) => content.map Char.toUpper ++ subTextscFuel fuel after
      | none => rest.map Char.toUpper
    else c :: subTextscFuel fuel s

def subTextsc (s : List Char) : List Char :=
  subTextscFuel s.length s

/-- `detex(gloss)` (lines 75-83): three literal replacements followed by
the small-caps substitution.  Python's `str.upper()` agrees with
`Char.toUpper` on the ASCII glosses this dataset holds. -/
def detex (gloss : List Char) : List Char :=
  subTextsc
    (replaceL tldPattern "~".data
      (replaceL emptysetPattern "∅".data
        (replaceL rightarrowPattern "→".data gloss)))

/-! ### The example table (lines 71-72, 86-114, 172-190) -/

/-- `fix_example_lang_id` (lines 71-72). -/
def fix_example_lang_id (language_id : String) : String :=
  if language_id = "wara1247" then "wara1300" else language_id

/-- One record of `example_table` (lines 172-181), plus the `ID` assigned
by the numbering loop (lines 183-188; empty before that loop runs). -/
structure ExampleRow where
  Language_ID : String
  Primary_Text : String
  Analyzed_Word : List String
  Gloss : List String
  Translated_Text : String
  reference : String
  ID : String
deriving DecidableEq, Repr

/-- The numbering loop of `cmd_makecldf` (lines 183-188): walk the example
table in input order, keep a per-language counter
(`examples_per_language`, a `Counter` starting every language at 0),
increment the counter of the example's language, and set the example's
`ID` to `'{}-{}'.format(Language_ID, counter)`. -/
def number_examples : (String → Nat) → List ExampleRow → List ExampleRow
  | _, [] => []
  | counter, e :: es =>
    let n := counter e.Language_ID + 1
    { e with ID := e.Language_ID ++ "-" ++ toString n } ::
      number_examples (fun l => if l = e.Language_ID then n else counter l) es

/-- Python `str.ljust(width)`: pad with spaces on the right up to `width`
(no-op when the string is already at least that long). -/
def ljustS (s : String) (width : Nat) : String :=
  s ++ String.mk (List.replicate (width - s.length) ' ')

/-- Python `str.rstrip()`: remove trailing whitespace. -/
def rstripS (s : String) : String :=
  String.mk ((s.data.reverse.dropWhile Char.isWhitespace).reverse)

/-- The two `zip_longest(tokens, widths, fillvalue=0)` comprehensions of
`render_example` (lines 91-96).  When the width list is exhausted the fill
value 0 pads the remaining tokens (`token.ljust(0)` is the token itself);
when the TOKEN list is exhausted first, Python would call `ljust` on the
integer fill value `0` and raise `AttributeError` — modelled as `none`. -/
def padTokens : List String → List Nat → Option (List String)
  | [], [] => some []
  | x :: xs, [] => (padTokens xs []).map fun l => ljustS x 0 :: l
  | [], _ :: _ => none
  | x :: xs, w :: ws => (padTokens xs ws).map fun l => ljustS x w :: l

/-- The per-pair column widths of `render_example` (line 90):
`[max(len(w), len(g)) for w, g in zip(words, glosses)]`. -/
def exampleWidths (e : ExampleRow) : List Nat :=
  (e.Analyzed_Word.zip e.Gloss).map fun p => max p.1.length p.2.length

/-- `render_example(example)` (lines 86-101).  Returns `none` exactly when
Python would raise (which the totality theorem shows never happens): the
interlinear example formatted as
`'({})  {}\n{}    {}'.format(ID, words, ' ' * id_width, glosses)` with
both joined lines right-stripped. -/
def render_example (e : ExampleRow) : Option String :=
  let widths := exampleWidths e
  match padTokens e.Analyzed_Word widths, padTokens e.Gloss widths with
  | some padded_words, some padded_glosses =>
    some ("(" ++ e.ID ++ ")  " ++ rstripS (String.intercalate "  " padded_words) ++
      "\n" ++ String.mk (List.replicate e.ID.length ' ') ++ "    " ++
      rstripS (String.intercalate "  " padded_glosses))
  | _, _ => none

/-- The filter of `warn_about_glosses` (lines 105-108): the examples whose
analyzed-word and gloss lines disagree in token count. -/
def mismatched_examples (example_table : List ExampleRow) : List ExampleRow :=
  example_table.filter fun e => decide (e.Analyzed_Word.length ≠ e.Gloss.length)

/-- `warn_about_glosses(example_table)` (lines 104-114): one diagnostic is
printed to stderr per mismatched example — its rendering.  We model the
emitted per-example diagnostics; the function only prints and never
modifies the table. -/
def warn_about_glosses (example_table : List ExampleRow) : List (Option String) :=
  (mismatched_examples example_table).map render_example

/-- Line 223: after `warn_about_glosses` ran (line 190), the writer
receives `example_table` itself, unchanged. -/
def example_table_output (example_table : List ExampleRow) : List ExampleRow :=
  example_table

/-! ### Replacement scans leave pattern-free strings unchanged -/

/-- A `str.replace` scan leaves a string with no occurrence of the
pattern unchanged. -/
theorem replaceFuel_eq_self (p r : List Char) :
    ∀ (fuel : Nat) (s : List Char), ¬ List.IsInfix p s → replaceFuel p r fuel s = s
  | 0, _, _ => rfl
  | _ + 1, [], _ => rfl
  | fuel + 1, c :: s, h => by
    have htail : ¬ List.IsInfix p s := fun hi => h (List.infix_cons_iff.2 (Or.inr hi))
    simp only [replaceFuel]
    rw [if_neg fun hc => h hc.2.isInfix,
      replaceFuel_eq_self p r fuel s htail]

theorem replaceL_eq_self {p r s : List Char} (h : ¬ List.IsInfix p s) :
    replaceL p r s = s :=
  replaceFuel_eq_self p r s.length s h

/-- The small-caps substitution leaves a string containing no
`\textsc{` unchanged. -/
theorem subTextscFuel_eq_self :
    ∀ (fuel : Nat) (s : List Char), ¬ List.IsInfix textscPattern s →
      subTextscFuel fuel s = s
  | 0, _, _ => rfl
  | _ + 1, [], _ => rfl
  | fuel + 1, c :: s, h => by
    have htail : ¬ List.IsInfix textscPattern s :=
      fun hi => h (List.infix_cons_iff.2 (Or.inr hi))
    simp only [subTextscFuel]
    rw [if_neg fun hc => h hc.isInfix, subTextscFuel_eq_self fuel s htail]

theorem subTextsc_eq_self {s : List Char} (h : ¬ List.IsInfix textscPattern s) :
    subTextsc s = s :=
  subTextscFuel_eq_self s.length s h

/-! ### Claims C1, C2, C4, C8, C9 and the C3 counterexample -/

/-- A raw language row carrying all three spellings the claim speaks
about: a `Glottocode` column, an `ID` column, and the lower-case `id`
column the code actually reads. -/
def c1row : String → String := fun k =>
  if k = "Glottocode" then "glot1234"
  else if k = "ID" then "LANG1"
  else if k = "id" then "raw1"
  else ""

/-- C1, counterexample: the Language Table Builder does NOT apply
`LANGUAGE_COLUMN_MAP` in the direction original name → output name.  On a
row that has both a `Glottocode` and an `ID` column the built record has
no `id` key at all (so in particular it does not equal the row's
`Glottocode` value): the comprehension `{new_key: row[old_key]}` uses the
map's first components (`ID`, `Glottocode`, ...) as output keys. -/
theorem claim_C1_counterexample :
    c1row "Glottocode" = "glot1234" ∧
    List.lookup "id" (build_language_row c1row) = none ∧
    List.lookup "id" (build_language_row c1row) ≠ some (c1row "Glottocode") := by
  refine ⟨rfl, by decide, by decide⟩

/-- C1, amended: the 9-entry map is applied in the direction
output name ← original name: each built record maps each pair's FIRST
component (the output key) to the raw row's value at the SECOND component.
Both output `ID` and output `Glottocode` are sourced from the raw `id`
column (so they are always equal), no duplicate target key arises, and
the built record has no `id` key. -/
theorem claim_C1 (row : String → String) :
    build_language_row row =
      [("ID", row "id"), ("Glottocode", row "id"), ("Family_ID", row "family_id"),
       ("Parent_ID", row "parent_id"), ("Name", row "name"),
       ("Latitude", row "latitude"), ("Longitude", row "longitude"),
       ("ISO639P3code", row "iso639P3code"), ("reference", row "reference")] ∧
    List.lookup "ID" (build_language_row row) = some (row "id") ∧
    List.lookup "Glottocode" (build_language_row row) = some (row "id") ∧
    List.lookup "id" (build_language_row row) = none := by
  exact ⟨rfl, rfl, rfl, rfl⟩

/-- C2: the Citation Resolver resolves `\citet[273]{bruce79alamblak}` to
the one-element source list [`bruce79alamblak[273]`], `\citep{foo79bar}`
to [`foo79bar`], the multi-page `\citet[12;14]{x}` to [`x[12,14]`]
(semicolons became commas), and on any reference string the regex does
not match at the start it leaves `Source` unset and puts the whole raw
string verbatim into `Source_comment`. -/
theorem claim_C2 :
    add_source "\\citet[273]\x7bbruce79alamblak\x7d".data =
      (some ["bruce79alamblak[273]".data], none) ∧
    add_source "\\citep\x7bfoo79bar\x7d".data = (some ["foo79bar".data], none) ∧
    add_source "\\citet[12;14]\x7bx\x7d".data = (some ["x[12,14]".data], none) ∧
    ∀ s : List Char, regex_reference_match s = none → add_source s = (none, some s) := by
  refine ⟨by decide, by decide, by decide, ?_⟩
  intro s h
  unfold add_source
  rw [h]

/-- C2, witness: the non-matching branch evaluated at the spec's own
example `p.c.`. -/
theorem claim_C2_witness :
    regex_reference_match "p.c.".data = none ∧
    add_source "p.c.".data = (none, some "p.c.".data) :=
  ⟨by decide, claim_C2.2.2.2 "p.c.".data (by decide)⟩

/-- C3, counterexample: `detex` is not idempotent.  On
`$\rightarrow\textsc{$}` one pass yields `$\rightarrow$` (the small-caps
substitution runs after the `$\rightarrow$` replacement and manufactures
a fresh occurrence), and a second pass turns that into `→`. -/
theorem claim_C3_counterexample :
    detex (detex "$\\rightarrow\\textsc\x7b$\x7d".data) ≠
      detex "$\\rightarrow\\textsc\x7b$\x7d".data := by decide

/-- C4: `make_value` looks the pair (parameter id, raw cell) up in the
code mapping; when it is present (with the CLDF-well-formed, non-empty
code id) the record's `Value` is the matched code's `Name` and `Code_ID`
is the matched code's id; when it is absent the record's `Value` is the
raw cell content verbatim and no `Code_ID` is attached.  Both branches
return a record — no error is raised. -/
theorem claim_C4 (row : String → String) (codeName : String → String)
    (cmap : String × String → Option String) (pid : String)
    (hids : ∀ key cid, cmap key = some cid → cid ≠ "") :
    (∀ cid, cmap (pid, row pid) = some cid →
      (make_value row codeName cmap pid).Value = codeName cid ∧
      (make_value row codeName cmap pid).Code_ID = some cid) ∧
    (cmap (pid, row pid) = none →
      (make_value row codeName cmap pid).Value = row pid ∧
      (make_value row codeName cmap pid).Code_ID = none) := by
  constructor
  · intro cid h
    simp [make_value, h, hids _ _ h]
  · intro h
    simp [make_value, h]

def c4row : String → String := fun k => if k = "id" then "lang1" else "yes"
def c4codeName : String → String := fun _ => "Yes"
def c4cmap : String × String → Option String := fun key =>
  if key = ("estimative", "yes") then some "estimative-1" else none

/-- C4, witness: a one-entry code mapping evaluated on both the mapped
and an unmapped parameter. -/
theorem claim_C4_witness :
    (∀ key cid, c4cmap key = some cid → cid ≠ "") ∧
    ((∀ cid, c4cmap ("estimative", c4row "estimative") = some cid →
      (make_value c4row c4codeName c4cmap "estimative").Value = c4codeName cid ∧
      (make_value c4row c4codeName c4cmap "estimative").Code_ID = some cid) ∧
    (c4cmap ("estimative", c4row "estimative") = none →
      (make_value c4row c4codeName c4cmap "estimative").Value = c4row "estimative" ∧
      (make_value c4row c4codeName c4cmap "estimative").Code_ID = none)) := by
  have hids : ∀ key cid, c4cmap key = some cid → cid ≠ "" := by
    intro key cid h
    unfold c4cmap at h
    split at h
    · cases h
      decide
    · cases h
  exact ⟨hids, claim_C4 c4row c4codeName c4cmap "estimative" hids⟩

/-- C8: `detex` maps `\textsc{r.pst}-3sg` to `R.PST-3sg`, tolerates the
unterminated `\textsc{abc` (yielding `ABC`), maps `$\rightarrow$` to `→`,
and is a total function that leaves any string free of its four markup
patterns unchanged. -/
theorem claim_C8 :
    detex "\\textsc\x7br.pst\x7d-3sg".data = "R.PST-3sg".data ∧
    detex "\\textsc\x7babc".data = "ABC".data ∧
    detex "$\\rightarrow$".data = "→".data ∧
    ∀ s : List Char,
      ¬ List.IsInfix rightarrowPattern s → ¬ List.IsInfix emptysetPattern s →
      ¬ List.IsInfix tldPattern s → ¬ List.IsInfix textscPattern s →
      detex s = s := by
  refine ⟨by decide, by decide, by decide, ?_⟩
  intro s h1 h2 h3 h4
  unfold detex
  rw [replaceL_eq_self h1, replaceL_eq_self h2, replaceL_eq_self h3, subTextsc_eq_self h4]

/-- C8, witness: a plain gloss with no markup passes through `detex`
unchanged. -/
theorem claim_C8_witness :
    ¬ List.IsInfix rightarrowPattern "child pigs see-big".data ∧
    ¬ List.IsInfix emptysetPattern "child pigs see-big".data ∧
    ¬ List.IsInfix tldPattern "child pigs see-big".data ∧
    ¬ List.IsInfix textscPattern "child pigs see-big".data ∧
    detex "child pigs see-big".data = "child pigs see-big".data := by
  refine ⟨by decide, by decide, by decide, by decide, ?_⟩
  exact claim_C8.2.2.2 "child pigs see-big".data (by decide) (by decide) (by decide) (by decide)

/-- C9: on every reference string, `add_source` populates exactly one of
`Source` and `Source_comment` — never both and never neither. -/
theorem claim_C9 (reference : List Char) :
    ((add_source reference).1.isSome ∧ (add_source reference).2 = none) ∨
    ((add_source reference).1 = none ∧ (add_source reference).2.isSome) := by
  unfold add_source
  cases regex_reference_match reference with
  | none => exact Or.inr ⟨rfl, rfl⟩
  | some pb =>
    obtain ⟨pages, bibkey⟩ := pb
    exact Or.inl ⟨rfl, rfl⟩

/-! ### Claim C5: the value table is the ordered cross product -/

theorem value_table_cons (row : String → String) (rows : List (String → String))
    (cn : String → String) (cm : String × String → Option String) (ps : List String) :
    value_table (row :: rows) cn cm ps =
      ps.map (make_value row cn cm) ++ value_table rows cn cm ps := by
  simp [value_table]

theorem value_table_length (rows : List (String → String)) (cn : String → String)
    (cm : String × String → Option String) (ps : List String) :
    (value_table rows cn cm ps).length = rows.length * ps.length := by
  induction rows with
  | nil => simp [value_table]
  | cons row rows ih =>
    rw [value_table_cons, List.length_append, List.length_map, ih]
    rw [List.length_cons, Nat.succ_mul]
    omega

theorem value_table_getElem (cn : String → String)
    (cm : String × String → Option String) (ps : List String) :
    ∀ (rows : List (String → String)) (i j : Nat) (hi : i < rows.length)
      (hj : j < ps.length),
      (value_table rows cn cm ps)[i * ps.length + j]? =
        some (make_value (rows.get ⟨i, hi⟩) cn cm (ps.get ⟨j, hj⟩))
  | [], i, j, hi, hj => by simp at hi
  | row :: rows, 0, j, hi, hj => by
    rw [value_table_cons]
    simp only [Nat.zero_mul, Nat.zero_add]
    rw [List.getElem?_append, if_pos (by simpa using hj)]
    simp [List.getElem?_map, List.getElem?_eq_getElem hj]
  | row :: rows, i + 1, j, hi, hj => by
    rw [value_table_cons]
    have hoff : (i + 1) * ps.length + j = (ps.map (make_value row cn cm)).length + (i * ps.length + j) := by
      simp [Nat.succ_mul]
      omega
    rw [hoff, List.getElem?_append_right (Nat.le_add_right _ _), Nat.add_sub_cancel_left]
    exact value_table_getElem cn cm ps rows i j (by simpa using hi) hj

theorem make_value_ID (row : String → String) (cn : String → String)
    (cm : String × String → Option String) (pid : String) :
    (make_value row cn cm pid).ID = row "id" ++ "-" ++ pid := by
  unfold make_value
  rcases cm (pid, row pid) with _ | cid
  · rfl
  · by_cases hc : cid = "" <;> simp [hc]

/-- C5: the built value table has exactly (number of raw rows) ×
(number of parameters) records, laid out as the cross product with
parameter order nested within raw-row order (the record at position
`i * |parameters| + j` is built from row `i` and parameter `j`), and each
record's identity is `{row['id']}-{parameter_id}`. -/
theorem claim_C5 (rows : List (String → String)) (cn : String → String)
    (cm : String × String → Option String) (ps : List String)
    (i j : Nat) (hi : i < rows.length) (hj : j < ps.length) :
    (value_table rows cn cm ps).length = rows.length * ps.length ∧
    (value_table rows cn cm ps)[i * ps.length + j]? =
      some (make_value (rows.get ⟨i, hi⟩) cn cm (ps.get ⟨j, hj⟩)) ∧
    (make_value (rows.get ⟨i, hi⟩) cn cm (ps.get ⟨j, hj⟩)).ID =
      (rows.get ⟨i, hi⟩) "id" ++ "-" ++ ps.get ⟨j, hj⟩ :=
  ⟨value_table_length rows cn cm ps,
   value_table_getElem cn cm ps rows i j hi hj,
   make_value_ID _ cn cm _⟩

def c5row : String → String := fun k => if k = "id" then "abkh1244" else "no"

/-- C5, witness: a one-row, one-parameter table evaluated at indices
(0, 0). -/
theorem claim_C5_witness :
    0 < ([c5row] : List (String → String)).length ∧
    0 < (["estimative"] : List String).length ∧
    ((value_table [c5row] c4codeName c4cmap ["estimative"]).length =
      ([c5row] : List (String → String)).length * (["estimative"] : List String).length ∧
    (value_table [c5row] c4codeName c4cmap ["estimative"])[0 * (["estimative"] : List String).length + 0]? =
      some (make_value (([c5row] : List (String → String)).get ⟨0, by decide⟩) c4codeName c4cmap
        ((["estimative"] : List String).get ⟨0, by decide⟩)) ∧
    (make_value (([c5row] : List (String → String)).get ⟨0, by decide⟩) c4codeName c4cmap
        ((["estimative"] : List String).get ⟨0, by decide⟩)).ID =
      (([c5row] : List (String → String)).get ⟨0, by decide⟩) "id" ++ "-" ++
        (["estimative"] : List String).get ⟨0, by decide⟩) :=
  ⟨by decide, by decide,
   claim_C5 [c5row] c4codeName c4cmap ["estimative"] 0 0 (by decide) (by decide)⟩

/-! ### Claim C6: per-language example numbering -/

theorem map_toString_shift (L : String) (c n : Nat) :
    List.map (fun k => L ++ "-" ++ toString (c + 1 + k + 1)) (List.range n) =
    List.map ((fun k => L ++ "-" ++ toString (c + k + 1)) ∘ Nat.succ) (List.range n) := by
  apply List.map_congr_left
  intro k _
  simp only [Function.comp_apply]
  congr 2
  omega

theorem number_examples_filter_map (L : String) (es : List ExampleRow) :
    ∀ counter : String → Nat,
      ((number_examples counter es).filter (fun e => decide (e.Language_ID = L))).map
          (fun e => e.ID) =
        (List.range ((es.filter (fun e => decide (e.Language_ID = L))).length)).map
          (fun k => L ++ "-" ++ toString (counter L + k + 1)) := by
  induction es with
  | nil => intro counter; simp [number_examples]
  | cons e es ih =>
    intro counter
    simp only [number_examples]
    by_cases hL : e.Language_ID = L
    · subst hL
      rw [List.filter_cons, List.filter_cons]
      rw [if_pos (by simp), if_pos (by simp)]
      rw [List.map_cons, List.length_cons, List.range_succ_eq_map, List.map_cons,
        List.map_map, ih]
      congr 1
      simp only [if_true]
      exact map_toString_shift e.Language_ID (counter e.Language_ID) _
    · rw [List.filter_cons, List.filter_cons]
      rw [if_neg (by simp [hL]), if_neg (by simp [hL])]
      rw [ih]
      have hc : (if L = e.Language_ID then counter e.Language_ID + 1 else counter L) =
          counter L := if_neg fun h => hL h.symm
      simp only [hc]

/-- C6: for every language id `L`, the examples whose (corrected)
`Language_ID` is `L` are numbered 1, 2, 3, … by a per-language counter in
input order, regardless of interleaving with other languages' examples,
and each one's identity is `{language_id}-{counter}`. -/
theorem claim_C6 (es : List ExampleRow) (L : String) :
    ((number_examples (fun _ => 0) es).filter (fun e => decide (e.Language_ID = L))).map
        (fun e => e.ID) =
      (List.range ((es.filter (fun e => decide (e.Language_ID = L))).length)).map
        (fun k => L ++ "-" ++ toString (k + 1)) := by
  rw [number_examples_filter_map L es (fun _ => 0)]
  simp

/-! ### Claims C7 and C10: the alignment diagnostic and rendering -/

theorem padTokens_isSome :
    ∀ (xs : List String) (ws : List Nat), ws.length ≤ xs.length →
      ∃ l, padTokens xs ws = some l
  | [], [], _ => ⟨[], rfl⟩
  | [], _ :: _, h => by simp at h
  | x :: xs, [], h => by
    obtain ⟨l, hl⟩ := padTokens_isSome xs [] (by simp)
    exact ⟨ljustS x 0 :: l, by simp [padTokens, hl]⟩
  | x :: xs, w :: ws, h => by
    obtain ⟨l, hl⟩ := padTokens_isSome xs ws (by simpa using h)
    exact ⟨ljustS x w :: l, by simp [padTokens, hl]⟩

theorem exampleWidths_length (e : ExampleRow) :
    (exampleWidths e).length = min e.Analyzed_Word.length e.Gloss.length := by
  simp [exampleWidths]

/-- `render_example` succeeds on every example and its output carries the
example's identity label up front. -/
theorem render_example_some (e : ExampleRow) :
    ∃ s, render_example e = some s ∧ ∃ body, s = "(" ++ e.ID ++ ")" ++ body := by
  obtain ⟨pw, hpw⟩ := padTokens_isSome e.Analyzed_Word (exampleWidths e)
    (by rw [exampleWidths_length]; omega)
  obtain ⟨pg, hpg⟩ := padTokens_isSome e.Gloss (exampleWidths e)
    (by rw [exampleWidths_length]; omega)
  refine ⟨"(" ++ e.ID ++ ")  " ++ rstripS (String.intercalate "  " pw) ++ "\n" ++
      String.mk (List.replicate e.ID.length ' ') ++ "    " ++
      rstripS (String.intercalate "  " pg), ?_, ?_⟩
  · simp only [render_example, hpw, hpg]
  · refine ⟨"  " ++ rstripS (String.intercalate "  " pw) ++ "\n" ++
      String.mk (List.replicate e.ID.length ' ') ++ "    " ++
      rstripS (String.intercalate "  " pg), ?_⟩
    have hsplit : (")  " : String) = ")" ++ "  " := rfl
    rw [hsplit]
    simp only [String.append_assoc]

theorem render_example_isSome (e : ExampleRow) : (render_example e).isSome := by
  obtain ⟨s, hs, -⟩ := render_example_some e
  simp [hs]

/-- C7: the Alignment Validator reports exactly the examples whose
`Analyzed_Word` and `Gloss` token lists differ in length — one diagnostic
(a successful rendering) per mismatched example — and every mismatched
example still reaches the output example table; nothing is removed and no
step fails. -/
theorem claim_C7 (table : List ExampleRow) (e : ExampleRow)
    (he : e ∈ table) (hm : e.Analyzed_Word.length ≠ e.Gloss.length) :
    e ∈ mismatched_examples table ∧
    (∀ e', e' ∈ mismatched_examples table ↔
      e' ∈ table ∧ e'.Analyzed_Word.length ≠ e'.Gloss.length) ∧
    (warn_about_glosses table).length = (mismatched_examples table).length ∧
    (∀ d ∈ warn_about_glosses table, d.isSome) ∧
    e ∈ example_table_output table := by
  have hmem : ∀ e', e' ∈ mismatched_examples table ↔
      e' ∈ table ∧ e'.Analyzed_Word.length ≠ e'.Gloss.length := by
    intro e'
    simp [mismatched_examples, List.mem_filter]
  refine ⟨(hmem e).2 ⟨he, hm⟩, hmem, ?_, ?_, he⟩
  · simp [warn_about_glosses]
  · intro d hd
    obtain ⟨e', -, he'⟩ := List.mem_map.1 hd
    rw [← he']
    exact render_example_isSome e'

def c7example : ExampleRow :=
  { Language_ID := "alam1246", Primary_Text := "yënr fëhm hɨti-bro-më-r-m",
    Analyzed_Word := ["yënr", "fëhm", "hɨti-bro-më-r-m"],
    Gloss := ["child", "pigs"],
    Translated_Text := "A child saw pig (as being) big.",
    reference := "p.c.", ID := "alam1246-1" }

/-- C7, witness: a one-example table whose example has 3 analyzed words
but 2 glosses. -/
theorem claim_C7_witness :
    c7example ∈ [c7example] ∧
    c7example.Analyzed_Word.length ≠ c7example.Gloss.length ∧
    (c7example ∈ mismatched_examples [c7example] ∧
    (∀ e', e' ∈ mismatched_examples [c7example] ↔
      e' ∈ [c7example] ∧ e'.Analyzed_Word.length ≠ e'.Gloss.length) ∧
    (warn_about_glosses [c7example]).length = (mismatched_examples [c7example]).length ∧
    (∀ d ∈ warn_about_glosses [c7example], d.isSome) ∧
    c7example ∈ example_table_output [c7example]) :=
  ⟨by simp, by decide, claim_C7 [c7example] c7example (by simp) (by decide)⟩

/-- C10: `render_example` is total on every example, aligned or not: the
column widths are computed over exactly the `min(|Analyzed_Word|,
|Gloss|)` zipped token pairs, the function always returns a rendering
(never raises), and the rendering starts with the example's `(ID)`
label. -/
theorem claim_C10 (e : ExampleRow) :
    (exampleWidths e).length = min e.Analyzed_Word.length e.Gloss.length ∧
    ∃ s, render_example e = some s ∧ ∃ body, s = "(" ++ e.ID ++ ")" ++ body :=
  ⟨exampleWidths_length e, render_example_some e⟩

/-! ### Claim C3: `patch_biblio` is idempotent

The two `str.replace` calls of `patch_biblio` remove every occurrence of
their pattern and can never manufacture a new occurrence of either
pattern, because (checked by `decide` below) no nonempty suffix of a
replacement is a proper prefix of a pattern, no proper nonempty suffix of
a pattern touches a replacement, and neither pattern occurs in either
replacement.  The two inductions below establish this for an arbitrary
scan; the side conditions are then discharged on the concrete strings. -/

theorem prefix_append_split {α : Type} {p x y : List α}
    (h : List.IsPrefix p (x ++ y)) :
    List.IsPrefix p x ∨
      (List.IsPrefix x p ∧ List.IsPrefix (List.drop x.length p) y) := by
  induction x generalizing p with
  | nil => exact Or.inr ⟨⟨p, rfl⟩, by simpa using h⟩
  | cons c x' ih =>
    cases p with
    | nil => exact Or.inl ⟨c :: x', rfl⟩
    | cons d p' =>
      rw [List.cons_append, List.cons_prefix_cons] at h
      obtain ⟨hd, h'⟩ := h
      rcases ih h' with h1 | ⟨h2, h3⟩
      · exact Or.inl (List.cons_prefix_cons.2 ⟨hd, h1⟩)
      · refine Or.inr ⟨List.cons_prefix_cons.2 ⟨hd.symm, h2⟩, ?_⟩
        simpa using h3

theorem infix_append_split {α : Type} {p x y : List α}
    (h : List.IsInfix p (x ++ y)) :
    List.IsInfix p x ∨ List.IsInfix p y ∨
      ∃ a b, a ++ b = p ∧ a ≠ [] ∧ b ≠ [] ∧
        List.IsSuffix a x ∧ List.IsPrefix b y := by
  induction x with
  | nil => exact Or.inr (Or.inl (by simpa using h))
  | cons c x' ih =>
    rw [List.cons_append, List.infix_cons_iff] at h
    rcases h with hpre | hinf
    · have hpre' : List.IsPrefix p ((c :: x') ++ y) := by simpa using hpre
      rcases prefix_append_split hpre' with h1 | ⟨h2, h3⟩
      · exact Or.inl h1.isInfix
      · obtain ⟨t, ht⟩ := h2
        by_cases hbt : t = []
        · subst hbt
          have hpcx : p = c :: x' := by simpa using ht.symm
          exact Or.inl (hpcx ▸ List.infix_rfl)
        · have hteq : List.drop (c :: x').length p = t := by
            rw [← ht, List.drop_left]
          refine Or.inr (Or.inr ⟨c :: x', t, ht, by simp, hbt, List.suffix_rfl, ?_⟩)
          rw [← hteq]
          exact h3
    · rcases ih hinf with h1 | h2 | ⟨a, b, hab, ha, hb, hsuf, hpre2⟩
      · exact Or.inl (List.infix_cons_iff.2 (Or.inr h1))
      · exact Or.inr (Or.inl h2)
      · exact Or.inr (Or.inr
          ⟨a, b, hab, ha, hb, hsuf.trans (List.suffix_cons c x'), hpre2⟩)

/-- Core invariant of one `str.replace` scan with respect to its own
pattern: under the three overlap side conditions, the output contains no
occurrence of the pattern, and any proper nonempty suffix of the pattern
that starts the output already started the input. -/
theorem replace_noOccur (p r : List Char)
    (hC1 : ¬ List.IsInfix p r)
    (hC2 : ∀ a, List.IsSuffix a r → List.IsPrefix a p → a = [] ∨ a = p)
    (hC3 : ∀ b, List.IsSuffix b p → b ≠ [] → b ≠ p →
      ¬ List.IsPrefix b r ∧ ¬ List.IsPrefix r b) :
    ∀ (fuel : Nat) (s : List Char), s.length ≤ fuel →
      ¬ List.IsInfix p (replaceFuel p r fuel s) ∧
      (∀ b, List.IsSuffix b p → b ≠ [] → b ≠ p →
        List.IsPrefix b (replaceFuel p r fuel s) → List.IsPrefix b s) := by
  have hp : p ≠ [] := fun hnil => hC1 (hnil ▸ List.nil_infix)
  intro fuel
  induction fuel with
  | zero =>
    intro s hs
    have hs0 : s = [] := List.eq_nil_of_length_eq_zero (Nat.le_zero.1 hs)
    subst hs0
    exact ⟨fun hi => hp (List.infix_nil.1 hi),
      fun b _ hbne _ hbpre => absurd (List.prefix_nil.1 hbpre) hbne⟩
  | succ fuel ih =>
    intro s hs
    cases s with
    | nil =>
      exact ⟨fun hi => hp (List.infix_nil.1 hi),
        fun b _ hbne _ hbpre => absurd (List.prefix_nil.1 hbpre) hbne⟩
    | cons c s' =>
      by_cases hmatch : p ≠ [] ∧ List.IsPrefix p (c :: s')
      · have hout : replaceFuel p r (fuel + 1) (c :: s') =
            r ++ replaceFuel p r fuel (List.drop p.length (c :: s')) := by
          simp only [replaceFuel]
          rw [if_pos hmatch]
        have hplen : 1 ≤ p.length := by
          cases p
          · exact absurd rfl hp
          · simp
        have hlen : (List.drop p.length (c :: s')).length ≤ fuel := by
          simp only [List.length_drop, List.length_cons]
          simp only [List.length_cons] at hs
          omega
        obtain ⟨ihMain, ihAux⟩ := ih (List.drop p.length (c :: s')) hlen
        rw [hout]
        constructor
        · intro hocc
          rcases infix_append_split hocc with h1 | h2 | ⟨a, b, hab, ha, hb, hsuf, -⟩
          · exact hC1 h1
          · exact ihMain h2
          · rcases hC2 a hsuf ⟨b, hab⟩ with h | h
            · exact ha h
            · subst h
              exact hb (by simpa using hab)
        · intro b hbs hbne hbnep hbpre
          exfalso
          rcases prefix_append_split hbpre with h1 | ⟨h2, -⟩
          · exact (hC3 b hbs hbne hbnep).1 h1
          · exact (hC3 b hbs hbne hbnep).2 h2
      · have hout : replaceFuel p r (fuel + 1) (c :: s') =
            c :: replaceFuel p r fuel s' := by
          simp only [replaceFuel]
          rw [if_neg hmatch]
        have hnp : ¬ List.IsPrefix p (c :: s') := fun hpre => hmatch ⟨hp, hpre⟩
        have hlen' : s'.length ≤ fuel := by
          simp only [List.length_cons] at hs
          omega
        obtain ⟨ihMain, ihAux⟩ := ih s' hlen'
        rw [hout]
        constructor
        · intro hocc
          rcases List.infix_cons_iff.1 hocc with hpre | hinf
          · cases p with
            | nil => exact hp rfl
            | cons d p' =>
              rw [List.cons_prefix_cons] at hpre
              obtain ⟨hd, hp'⟩ := hpre
              cases p' with
              | nil => exact hnp (by rw [hd]; exact ⟨s', rfl⟩)
              | cons d2 p'' =>
                have hnep : (d2 :: p'') ≠ d :: d2 :: p'' := fun h =>
                  absurd (congrArg List.length h) (by simp)
                have hps' := ihAux (d2 :: p'') ⟨[d], rfl⟩ (by simp) hnep hp'
                exact hnp (List.cons_prefix_cons.2 ⟨hd, hps'⟩)
          · exact ihMain hinf
        · intro b hbs hbne hbnep hbpre
          cases b with
          | nil => exact absurd rfl hbne
          | cons d b' =>
            rw [List.cons_prefix_cons] at hbpre
            obtain ⟨hd, hb'⟩ := hbpre
            cases b' with
            | nil => exact List.cons_prefix_cons.2 ⟨hd, ⟨s', rfl⟩⟩
            | cons d2 b'' =>
              have hsuf2 : List.IsSuffix (d2 :: b'') p :=
                List.IsSuffix.trans ⟨[d], rfl⟩ hbs
              have hnep2 : (d2 :: b'') ≠ p := by
                intro h
                have hlb : (d :: d2 :: b'').length ≤ p.length := hbs.length_le
                rw [← h] at hlb
                simp at hlb
              exact List.cons_prefix_cons.2
                ⟨hd, ihAux (d2 :: b'') hsuf2 (by simp) hnep2 hb'⟩

/-- A `str.replace` scan for pattern `p` cannot manufacture an occurrence
of a different pattern `q`, provided (side conditions) `q` does not occur
in the replacement `r` and no overlap between `q` and `r` is possible at
the splice boundaries. -/
theorem replace_preserve_noOccur (p r q : List Char)
    (hq : q ≠ [])
    (hE1 : ¬ List.IsInfix q r)
    (hE2 : ∀ b, List.IsSuffix b q → b ≠ [] → b ≠ q →
      ¬ List.IsPrefix b r ∧ ¬ List.IsPrefix r b)
    (hE3 : ∀ a, List.IsSuffix a r → List.IsPrefix a q → a = []) :
    ∀ (fuel : Nat) (s : List Char), s.length ≤ fuel → ¬ List.IsInfix q s →
      ¬ List.IsInfix q (replaceFuel p r fuel s) ∧
      (∀ b, List.IsSuffix b q → b ≠ [] → b ≠ q →
        List.IsPrefix b (replaceFuel p r fuel s) → List.IsPrefix b s) := by
  intro fuel
  induction fuel with
  | zero =>
    intro s hs hno
    have hs0 : s = [] := List.eq_nil_of_length_eq_zero (Nat.le_zero.1 hs)
    subst hs0
    exact ⟨hno, fun b _ _ _ hbpre => hbpre⟩
  | succ fuel ih =>
    intro s hs hno
    cases s with
    | nil => exact ⟨hno, fun b _ _ _ hbpre => hbpre⟩
    | cons c s' =>
      have hnotail : ¬ List.IsInfix q s' :=
        fun hi => hno (List.infix_cons_iff.2 (Or.inr hi))
      by_cases hmatch : p ≠ [] ∧ List.IsPrefix p (c :: s')
      · have hout : replaceFuel p r (fuel + 1) (c :: s') =
            r ++ replaceFuel p r fuel (List.drop p.length (c :: s')) := by
          simp only [replaceFuel]
          rw [if_pos hmatch]
        have hplen : 1 ≤ p.length := by
          cases p
          · exact absurd rfl hmatch.1
          · simp
        have hlen : (List.drop p.length (c :: s')).length ≤ fuel := by
          simp only [List.length_drop, List.length_cons]
          simp only [List.length_cons] at hs
          omega
        have hnodrop : ¬ List.IsInfix q (List.drop p.length (c :: s')) :=
          fun hi => hno (hi.trans (List.drop_suffix _ _).isInfix)
        obtain ⟨ihMain, ihAux⟩ := ih (List.drop p.length (c :: s')) hlen hnodrop
        rw [hout]
        constructor
        · intro hocc
          rcases infix_append_split hocc with h1 | h2 | ⟨a, b, hab, ha, hb, hsuf, -⟩
          · exact hE1 h1
          · exact ihMain h2
          · exact ha (hE3 a hsuf ⟨b, hab⟩)
        · intro b hbs hbne hbnep hbpre
          exfalso
          rcases prefix_append_split hbpre with h1 | ⟨h2, -⟩
          · exact (hE2 b hbs hbne hbnep).1 h1
          · exact (hE2 b hbs hbne hbnep).2 h2
      · have hout : replaceFuel p r (fuel + 1) (c :: s') =
            c :: replaceFuel p r fuel s' := by
          simp only [replaceFuel]
          rw [if_neg hmatch]
        have hlen' : s'.length ≤ fuel := by
          simp only [List.length_cons] at hs
          omega
        obtain ⟨ihMain, ihAux⟩ := ih s' hlen' hnotail
        rw [hout]
        constructor
        · intro hocc
          rcases List.infix_cons_iff.1 hocc with hpre | hinf
          · cases q with
            | nil => exact hq rfl
            | cons d q' =>
              rw [List.cons_prefix_cons] at hpre
              obtain ⟨hd, hq'⟩ := hpre
              cases q' with
              | nil => exact hno (List.IsPrefix.isInfix (by rw [hd]; exact ⟨s', rfl⟩))
              | cons d2 q'' =>
                have hnep : (d2 :: q'') ≠ d :: d2 :: q'' := fun h =>
                  absurd (congrArg List.length h) (by simp)
                have hqs' := ihAux (d2 :: q'') ⟨[d], rfl⟩ (by simp) hnep hq'
                exact hno (List.IsPrefix.isInfix
                  (List.cons_prefix_cons.2 ⟨hd, hqs'⟩))
          · exact ihMain hinf
        · intro b hbs hbne hbnep hbpre
          cases b with
          | nil => exact absurd rfl hbne
          | cons d b' =>
            rw [List.cons_prefix_cons] at hbpre
            obtain ⟨hd, hb'⟩ := hbpre
            cases b' with
            | nil => exact List.cons_prefix_cons.2 ⟨hd, ⟨s', rfl⟩⟩
            | cons d2 b'' =>
              have hsuf2 : List.IsSuffix (d2 :: b'') q :=
                List.IsSuffix.trans ⟨[d], rfl⟩ hbs
              have hnep2 : (d2 :: b'') ≠ q := by
                intro h
                have hlb : (d :: d2 :: b'').length ≤ q.length := hbs.length_le
                rw [← h] at hlb
                simp at hlb
              exact List.cons_prefix_cons.2
                ⟨hd, ihAux (d2 :: b'') hsuf2 (by simp) hnep2 hb'⟩

/-- C3, amended: `patch_biblio` is idempotent — applying it twice gives
the same result as applying it once, for every input string.  (`detex` is
NOT idempotent; see the counterexample theorem.) -/
theorem claim_C3 (s : List Char) :
    patch_biblio (patch_biblio s) = patch_biblio s := by
  have hR1 : ¬ List.IsInfix ringePattern ringeReplacement := by decide
  have hR2 : ∀ a, List.IsSuffix a ringeReplacement → List.IsPrefix a ringePattern →
      a = [] ∨ a = ringePattern := by
    have h : ∀ a ∈ ringeReplacement.tails, List.IsPrefix a ringePattern →
        a = [] ∨ a = ringePattern := by decide
    exact fun a ha => h a ((List.mem_tails _ _).2 ha)
  have hR3 : ∀ b, List.IsSuffix b ringePattern → b ≠ [] → b ≠ ringePattern →
      ¬ List.IsPrefix b ringeReplacement ∧ ¬ List.IsPrefix ringeReplacement b := by
    have h : ∀ b ∈ ringePattern.tails, b ≠ [] → b ≠ ringePattern →
        ¬ List.IsPrefix b ringeReplacement ∧ ¬ List.IsPrefix ringeReplacement b := by
      decide
    exact fun b hb => h b ((List.mem_tails _ _).2 hb)
  have hY1 : ¬ List.IsInfix yahalomPattern yahalomReplacement := by decide
  have hY2 : ∀ a, List.IsSuffix a yahalomReplacement → List.IsPrefix a yahalomPattern →
      a = [] ∨ a = yahalomPattern := by
    have h : ∀ a ∈ yahalomReplacement.tails, List.IsPrefix a yahalomPattern →
        a = [] ∨ a = yahalomPattern := by decide
    exact fun a ha => h a ((List.mem_tails _ _).2 ha)
  have hY3 : ∀ b, List.IsSuffix b yahalomPattern → b ≠ [] → b ≠ yahalomPattern →
      ¬ List.IsPrefix b yahalomReplacement ∧ ¬ List.IsPrefix yahalomReplacement b := by
    have h : ∀ b ∈ yahalomPattern.tails, b ≠ [] → b ≠ yahalomPattern →
        ¬ List.IsPrefix b yahalomReplacement ∧ ¬ List.IsPrefix yahalomReplacement b := by
      decide
    exact fun b hb => h b ((List.mem_tails _ _).2 hb)
  have hRY1 : ¬ List.IsInfix ringePattern yahalomReplacement := by decide
  have hRY2 : ∀ b, List.IsSuffix b ringePattern → b ≠ [] → b ≠ ringePattern →
      ¬ List.IsPrefix b yahalomReplacement ∧ ¬ List.IsPrefix yahalomReplacement b := by
    have h : ∀ b ∈ ringePattern.tails, b ≠ [] → b ≠ ringePattern →
        ¬ List.IsPrefix b yahalomReplacement ∧ ¬ List.IsPrefix yahalomReplacement b := by
      decide
    exact fun b hb => h b ((List.mem_tails _ _).2 hb)
  have hRY3 : ∀ a, List.IsSuffix a yahalomReplacement → List.IsPrefix a ringePattern →
      a = [] := by
    have h : ∀ a ∈ yahalomReplacement.tails, List.IsPrefix a ringePattern → a = [] := by
      decide
    exact fun a ha => h a ((List.mem_tails _ _).2 ha)
  have h1 : ¬ List.IsInfix ringePattern (replaceL ringePattern ringeReplacement s) :=
    (replace_noOccur ringePattern ringeReplacement hR1 hR2 hR3 s.length s le_rfl).1
  have h2 : ¬ List.IsInfix ringePattern
      (replaceL yahalomPattern yahalomReplacement
        (replaceL ringePattern ringeReplacement s)) :=
    (replace_preserve_noOccur yahalomPattern yahalomReplacement ringePattern (by decide)
      hRY1 hRY2 hRY3 (replaceL ringePattern ringeReplacement s).length
      (replaceL ringePattern ringeReplacement s) le_rfl h1).1
  have h3 : ¬ List.IsInfix yahalomPattern
      (replaceL yahalomPattern yahalomReplacement
        (replaceL ringePattern ringeReplacement s)) :=
    (replace_noOccur yahalomPattern yahalomReplacement hY1 hY2 hY3
      (replaceL ringePattern ringeReplacement s).length
      (replaceL ringePattern ringeReplacement s) le_rfl).1
  show replaceL yahalomPattern yahalomReplacement (replaceL ringePattern ringeReplacement
      (replaceL yahalomPattern yahalomReplacement (replaceL ringePattern ringeReplacement s))) =
    replaceL yahalomPattern yahalomReplacement (replaceL ringePattern ringeReplacement s)
  rw [replaceL_eq_self h2, replaceL_eq_self h3]
